import Mathlib

/-!
Verification of the LiberTEM I/O dataset base layer (fileset / partition /
PickUDF merge) against its natural-language specification.

The definitions below are a shallow embedding of the Python sources
`libertem/io/dataset/base/fileset.py`, `libertem/io/dataset/base/partition.py`
and `libertem/udf/raw.py`.  Python integers are modelled as `Nat`/`Int`,
fallible code (`raise`, `assert`) as `Except PyErr`.  Parts of the repository
that the sources call but that are not available (FileTree, the read-range
compiler in tiling.py, the IO backend) are modelled from the specification and
marked `Modelled from the spec:` in their doc comments.
-/

/-- Python exception kinds raised by the embedded code: `ValueError`
(invalid argument) and `AssertionError` (failed `assert`). -/
inductive PyErr where
  | valueError (msg : String)
  | assertionError (msg : String)
deriving DecidableEq, Repr

/-- Returns `true` on `Except.ok`, `false` on `Except.error`. -/
def exceptIsOk {ε α : Type} : Except ε α → Bool
  | .ok _ => true
  | .error _ => false

/-- Embedding of `libertem.common.Shape`: the full dims tuple together with
the number of trailing signal dimensions (`sig_dims`). -/
structure Shape where
  dims : List Nat
  sig_dims : Nat
deriving DecidableEq, Repr

/-- The navigation part of the shape: leading `dims.length - sig_dims` axes. -/
def Shape.nav (s : Shape) : List Nat :=
  s.dims.take (s.dims.length - s.sig_dims)

/-- The signal part of the shape: trailing `sig_dims` axes. -/
def Shape.sig (s : Shape) : List Nat :=
  s.dims.drop (s.dims.length - s.sig_dims)

/-- `shape.nav.dims` in the Python source: number of navigation axes. -/
def Shape.navDims (s : Shape) : Nat :=
  (Shape.nav s).length

/-- `shape.nav.size` in the Python source: product of the navigation axes. -/
def Shape.navSize (s : Shape) : Nat :=
  (Shape.nav s).prod

/-- Embedding of `libertem.common.Slice`: origin coordinates plus a `Shape`. -/
structure Slice where
  origin : List Nat
  shape : Shape
deriving DecidableEq, Repr

/-- Embedding of a File Descriptor (`libertem/io/dataset/base/file.py`):
a physical file covering global frames `[start_idx, end_idx)` with a
per-file header, and its open/closed handle state. -/
structure File where
  path : String
  start_idx : Nat
  end_idx : Nat
  file_header_bytes : Nat
  isOpen : Bool
deriving DecidableEq, Repr

/-- Default `File` used only to give `List.headD`/`List.getLastD` a value. -/
def dFile : File := ⟨"", 0, 0, 0, false⟩

/-- Contiguity check: consecutive files satisfy `f.end_idx = g.start_idx`. -/
def contiguousB : List File → Bool
  | f :: g :: r => (f.end_idx == g.start_idx) && contiguousB (g :: r)
  | _ => true

/-- A file list is a well-formed cover when every file is non-empty
(`start_idx < end_idx`) and the list is gap-free and non-overlapping. -/
def filesOkB (l : List File) : Bool :=
  l.all (fun f => decide (f.start_idx < f.end_idx)) && contiguousB l

/-- Non-strict ordering of the files by `start_idx`. -/
def startChainB : List File → Bool
  | f :: g :: r => decide (f.start_idx ≤ g.start_idx) && startChainB (g :: r)
  | _ => true

/-- Insertion step of the sort used by the modelled `FileTree.make`. -/
def insertFile (f : File) : List File → List File
  | [] => [f]
  | g :: r => if f.start_idx ≤ g.start_idx then f :: g :: r else g :: insertFile f r

/-- Insertion sort of files by `start_idx`. -/
def sortByStart : List File → List File
  | [] => []
  | f :: r => insertFile f (sortByStart r)

/-- Modelled from the spec: `FileTree.make` (libertem/io/dataset/base/utils.py,
not under src/).  Per the spec a File Set is "an ordered, gap-free,
non-overlapping collection of File Descriptors" and construction fails "when
the files cannot be ordered into a gap-free, non-overlapping cover"; the
sorted-array representation is the spec's suggested ordered structure.
Returns `none` exactly when the files cannot be so ordered (or are empty). -/
def FileTree.make (files : List File) : Option (List File) :=
  let sorted := sortByStart files
  if files.isEmpty then none
  else if filesOkB sorted then some sorted else none

/-- Modelled from the spec: `FileTree.search_start(frame)`
(libertem/io/dataset/base/utils.py, not under src/): "returns the position of
the File Descriptor whose range contains `frame`, or the first File Descriptor
starting at or after `frame` if none contains it exactly (lower-bound
semantics)".  On the sorted contiguous array both readings coincide with the
first index whose `end_idx` exceeds `frame`; the list length is returned when
there is no such file. -/
def search_start (tree : List File) (frame : Int) : Nat :=
  tree.findIdx (fun f => decide (frame < (f.end_idx : Int)))

/-- Embedding of `FileSet` state (fileset.py): the file list, the search tree
built at construction, the `_files_open` flag and the frame header/footer
byte counts. -/
structure FileSet where
  files : List File
  tree : List File
  files_open : Bool
  frame_header_bytes : Nat
  frame_footer_bytes : Nat
deriving DecidableEq, Repr

/-- Embedding of `FileSet.__init__` (fileset.py lines 11-30): asserts the file
list is non-empty, builds the tree, and raises `ValueError` when the tree
cannot be built. -/
def FileSet.init (files : List File) (frame_header_bytes frame_footer_bytes : Nat) :
    Except PyErr FileSet :=
  if files.isEmpty then .error (.assertionError "len(files) > 0")
  else
    match FileTree.make files with
    | none => .error (.valueError "files")
    | some tree => .ok ⟨files, tree, false, frame_header_bytes, frame_footer_bytes⟩

/-- Embedding of `FileSet.files_from(start)` (fileset.py lines 58-61): all
files from the tree's lower bound for `start` onwards. -/
def FileSet.files_from (fs : FileSet) (start : Int) : List File :=
  fs.files.drop (search_start fs.tree start)

/-- Embedding of `FileSet._get_files_for_range` (fileset.py lines 46-56):
scan forward from the lower bound, stop at the first file with
`start_idx > stop`, and assert the result is non-empty. -/
def FileSet.get_files_for_range (fs : FileSet) (start stop : Int) :
    Except PyErr (List File) :=
  let files := (fs.files_from start).takeWhile (fun f => decide ((f.start_idx : Int) ≤ stop))
  if files.isEmpty then .error (.assertionError "len(files) > 0") else .ok files

/-- Embedding of `FileSet.get_for_range` (fileset.py lines 32-41): filter the
files for the closed range `[start, stop]` and clone the set (which re-runs
`FileSet.__init__` on the filtered list). -/
def FileSet.get_for_range (fs : FileSet) (start stop : Int) : Except PyErr FileSet :=
  match fs.get_files_for_range start stop with
  | .error e => .error e
  | .ok files => FileSet.init files fs.frame_header_bytes fs.frame_footer_bytes

/-- Embedding of `File.open`: the handle becomes open. -/
def File.openFile (f : File) : File := { f with isOpen := true }

/-- Embedding of `File.close`: the handle becomes closed. -/
def File.closeFile (f : File) : File := { f with isOpen := false }

/-- Embedding of `FileSet.__enter__` (fileset.py lines 63-67): open every
file, then mark the set open. -/
def FileSet.enter (fs : FileSet) : FileSet :=
  { fs with files := fs.files.map File.openFile, files_open := true }

/-- Embedding of `FileSet.__exit__` (fileset.py lines 69-72): close every
file and mark the set closed, whatever else happened. -/
def FileSet.exit (fs : FileSet) : FileSet :=
  { fs with files := fs.files.map File.closeFile, files_open := false }

/-- Python `with fs: body` semantics for the scoped acquisition: `__enter__`
runs first, and `__exit__` runs on the state the body leaves behind whether
the body finished normally (`Except.ok`) or with an exception
(`Except.error`). -/
def FileSet.withOpen (fs : FileSet) (body : FileSet → Except String Unit × FileSet) :
    Except String Unit × FileSet :=
  let pair := body fs.enter
  (pair.1, pair.2.exit)

/-- Embedding of `DataSetMeta`: the dataset shape and raw on-disk dtype. -/
structure DataSetMeta where
  shape : Shape
  raw_dtype : String
deriving DecidableEq, Repr

/-- Embedding of the `Partition` base class state (partition.py lines 21-47). -/
structure Partition where
  meta : DataSetMeta
  slice : Slice
deriving DecidableEq, Repr

/-- Embedding of `Partition.__init__` (partition.py lines 22-47): stores meta
and slice, raising `ValueError` unless the slice's nav shape is flat. -/
def Partition.init (meta : DataSetMeta) (partition_slice : Slice) :
    Except PyErr Partition :=
  if Shape.navDims partition_slice.shape ≠ 1 then
    .error (.valueError "nav dims should be flat")
  else .ok ⟨meta, partition_slice⟩

/-- Embedding of the buffers dictionary of `PickUDF` (raw.py): a single
`intensity` result buffer, flattened to a list of samples. -/
structure UDFBuffers where
  intensity : List Int
deriving DecidableEq, Repr

/-- Embedding of `PickUDF.merge` (raw.py lines 44-48):
`dest['intensity'][:] += src['intensity']`, an elementwise in-place addition
over the full buffer extent. -/
def PickUDF.merge (dest src : UDFBuffers) : UDFBuffers :=
  ⟨dest.intensity.zipWith (· + ·) src.intensity⟩

/-- Embedding of `f_per_part = max(1, num_frames // num_partitions)`
(partition.py line 57). -/
def f_per_part (num_frames num_partitions : Nat) : Nat :=
  max 1 (num_frames / num_partitions)

/-- Embedding of the loop body of `Partition.make_slices` (partition.py lines
59-70): starting at frame `start` and stepping by `f`, emit
`(Slice, start, stop)` triples with `stop = min(start + f, num_frames)`,
stopping once `start >= num_frames`.  The loop advances by `f >= 1` each
iteration, so `num_frames` iterations of fuel always suffice. -/
def make_slices_go (sig : List Nat) (num_frames f : Nat) : Nat → Nat → List (Slice × Nat × Nat)
  | 0, _ => []
  | fuel + 1, start =>
    if start < num_frames then
      (⟨start :: List.replicate sig.length 0,
        ⟨(min (start + f) num_frames - start) :: sig, sig.length⟩⟩,
       start, min (start + f) num_frames)
        :: make_slices_go sig num_frames f fuel (start + f)
    else []

/-- Embedding of `Partition.make_slices(shape, num_partitions)` (partition.py
lines 49-70). -/
def Partition.make_slices (shape : Shape) (num_partitions : Nat) : List (Slice × Nat × Nat) :=
  make_slices_go shape.sig shape.navSize
    (f_per_part shape.navSize num_partitions) shape.navSize 0

/-- The triple emitted by one `make_slices` iteration starting at frame `s`. -/
def sliceEntry (sig : List Nat) (n f s : Nat) : Slice × Nat × Nat :=
  (⟨s :: List.replicate sig.length 0, ⟨(min (s + f) n - s) :: sig, sig.length⟩⟩,
   s, min (s + f) n)

/-! ### Claim C10: every constructed Partition has a flat nav axis -/

/-- Example dataset metadata: 10 frames of signal shape (2, 2). -/
def metaEx : DataSetMeta := ⟨⟨[10, 2, 2], 2⟩, "float32"⟩

/-- Example partition slice covering frames [0, 10) of `metaEx`. -/
def sliceNav1 : Slice := ⟨[0, 0, 0], ⟨[10, 2, 2], 2⟩⟩

/-- The partition obtained from `Partition.init metaEx sliceNav1`. -/
def pExC10 : Partition := ⟨metaEx, sliceNav1⟩

/-- Embedding of the `BasePartition` state (partition.py lines 110-140). -/
structure BasePartition where
  meta : DataSetMeta
  slice : Slice
  fileset : FileSet
  start_frame : Int
  num_frames : Int
deriving DecidableEq, Repr

/-- Embedding of `BasePartition.__init__` (partition.py lines 114-142), in
source order: `super().__init__` checks the nav shape is flat, then the
restricted FileSet is derived via
`fileset.get_for_range(start_frame, start_frame + num_frames - 1)`, and only
afterwards is `num_frames <= 0` rejected with `ValueError`. -/
def BasePartition.init (meta : DataSetMeta) (partition_slice : Slice)
    (fileset : FileSet) (start_frame num_frames : Int) :
    Except PyErr BasePartition :=
  if Shape.navDims partition_slice.shape ≠ 1 then
    .error (.valueError "nav dims should be flat")
  else
    match fileset.get_for_range start_frame (start_frame + num_frames - 1) with
    | .error e => .error e
    | .ok fsub =>
      if num_frames ≤ 0 then
        .error (.valueError ("invalid number of frames: " ++ toString num_frames))
      else .ok ⟨meta, partition_slice, fsub, start_frame, num_frames⟩

/-- A file overlaps the closed frame interval `[a, b]` iff it has a frame at
or after `a` (`a < end_idx`) and starts no later than `b`. -/
def overlapsB (a b : Int) (f : File) : Bool :=
  decide (a < (f.end_idx : Int)) && decide ((f.start_idx : Int) ≤ b)

/-- Example files: two contiguous files covering frames [0, 5) and [5, 10). -/
def fileA : File := ⟨"a", 0, 5, 0, false⟩

/-- Second example file, frames [5, 10). -/
def fileB : File := ⟨"b", 5, 10, 0, false⟩

/-- Example FileSet over `fileA` and `fileB`. -/
def fsAB : FileSet := ⟨[fileA, fileB], [fileA, fileB], false, 0, 0⟩

/-- The partition slice for frames [3, 7) of the example dataset. -/
def sliceP3 : Slice := ⟨[3, 0, 0], ⟨[4, 2, 2], 2⟩⟩

/-- The BasePartition produced by `BasePartition.init metaEx sliceP3 fsAB 3 4`. -/
def pExC5 : BasePartition :=
  ⟨metaEx, sliceP3, ⟨[fileA, fileB], [fileA, fileB], false, 0, 0⟩, 3, 4⟩

/-- A single example file covering frames [0, 10). -/
def fileC : File := ⟨"c", 0, 10, 0, false⟩

/-- Example FileSet over the single file `fileC`. -/
def fsC : FileSet := ⟨[fileC], [fileC], false, 0, 0⟩

/-! ### Definitions for claims C3 and C6 -/

/-- Modelled from the spec: the number of frames of the partition that
survive the ROI.  Per spec section 4.3 step 1, the read-range compiler
"skips frames where ROI is false"; with no ROI all frames survive.  The ROI
is the dataset-wide boolean mask over the nav axis, indexed by global frame
index. -/
def surviving_frames (start_frame num_frames : Int) (roi : Option (List Bool)) : Nat :=
  match roi with
  | none => num_frames.toNat
  | some m =>
    (((List.range num_frames.toNat).map (fun i => start_frame.toNat + i)).filter
      (fun i => m.getD i false)).length

/-- Number of ROI-selected frames before global frame `start`: the
ROI-compressed coordinate of the partition's first surviving frame. -/
def roiCountBefore (start : Nat) (m : List Bool) : Nat :=
  ((List.range start).filter (fun i => m.getD i false)).length

/-- Embedding of `DataTile` (tiling.py, observable fields): the materialized
array's shape, the tile `Slice`, and the tiling-scheme index. -/
structure DataTile where
  data_shape : List Nat
  tile_slice : Slice
  scheme_idx : Nat
deriving DecidableEq, Repr

/-- Embedding of `BasePartition.get_macrotile` (partition.py lines 154-182).
The emptiness test stands for `next(self.get_tiles(...))` raising
`StopIteration`, which by the spec happens exactly when no frame of the
partition survives the ROI (`surviving_frames = 0`); the `StopIteration`
branch is the faithful embedding of lines 173-182: a tile whose slice has
origin `(slice.origin[0], 0, 0)` and shape `Shape((0,) + sig, sig_dims=2)`.
The non-empty branch is modelled from the spec (the tile sequence itself
lives in the IO backend, not under src/): a single tile covering all
surviving frames at the ROI-compressed nav offset. -/
def BasePartition.get_macrotile (p : BasePartition) (roi : Option (List Bool)) : DataTile :=
  if surviving_frames p.start_frame p.num_frames roi = 0 then
    let tile_slice : Slice :=
      ⟨[p.slice.origin.headD 0, 0, 0], ⟨0 :: Shape.sig p.slice.shape, 2⟩⟩
    ⟨tile_slice.shape.dims, tile_slice, 0⟩
  else
    let nSurv := surviving_frames p.start_frame p.num_frames roi
    let navOffset :=
      match roi with
      | none => p.start_frame.toNat
      | some m => roiCountBefore p.start_frame.toNat m
    let sig := Shape.sig p.slice.shape
    let ts : Slice := ⟨navOffset :: List.replicate sig.length 0, ⟨nSurv :: sig, sig.length⟩⟩
    ⟨ts.shape.dims, ts, 0⟩

/-- One compiled Read Range entry: tile index, signal sub-slice index, file
index, byte offset within the file, byte length. -/
structure ReadRangeEntry where
  tile_idx : Nat
  slice_idx : Nat
  file_idx : Nat
  offset : Nat
  length : Nat
deriving DecidableEq, Repr

/-- Product of a signal shape: number of samples. -/
def sigSize (sig_shape : List Nat) : Nat := sig_shape.prod

/-- Row-major linear index of a coordinate within a signal shape. -/
def linearIndex : List Nat → List Nat → Nat
  | _, [] => 0
  | sh, o :: os => o * sigSize (sh.drop 1) + linearIndex (sh.drop 1) os

/-- Split a frame list into consecutive groups of `depth` frames (fuel is
the list length; each step drops `depth >= 1` elements). -/
def chunksGo (depth : Nat) : Nat → List Nat → List (List Nat)
  | 0, _ => []
  | _, [] => []
  | fuel + 1, l => l.take depth :: chunksGo depth fuel (l.drop depth)

/-- Frame groups of size `depth` (the tiling depth). -/
def chunksOf (depth : Nat) (l : List Nat) : List (List Nat) :=
  if depth = 0 then [] else chunksGo depth l.length l

/-- Modelled from the spec (section 4.3 step 2): the read instructions for
one frame and one signal sub-slice.  The byte offset is
`file.header_bytes + (frame - file.start_idx) * (frame_header + sig_size*bpp
+ frame_footer) + frame_header + sig_sub_slice_byte_offset` and the length
is the sub-slice's byte span. -/
def frameReads (fileset_arr : List (Nat × Nat × Nat × Nat)) (sig_shape : List Nat)
    (bpp frame_header_bytes frame_footer_bytes : Nat)
    (tile_idx slice_idx : Nat) (sl : List Nat × List Nat) (frame : Nat) :
    List ReadRangeEntry :=
  match fileset_arr.find? (fun r => decide (r.1 ≤ frame) && decide (frame < r.2.1)) with
  | none => []
  | some (fstart, _, fidx, header) =>
    [⟨tile_idx, slice_idx, fidx,
      header
        + (frame - fstart) * (frame_header_bytes + sigSize sig_shape * bpp + frame_footer_bytes)
        + frame_header_bytes + linearIndex sig_shape sl.1 * bpp,
      sigSize sl.2 * bpp⟩]

/-- Read instructions of one tile: each signal sub-slice crossed with each
frame of the group. -/
def slicesReads (fileset_arr : List (Nat × Nat × Nat × Nat)) (sig_shape : List Nat)
    (bpp frame_header_bytes frame_footer_bytes tile_idx : Nat) :
    Nat → List (List Nat × List Nat) → List Nat → List ReadRangeEntry
  | _, [], _ => []
  | sidx, sl :: rest, frames =>
    frames.flatMap
      (frameReads fileset_arr sig_shape bpp frame_header_bytes frame_footer_bytes
        tile_idx sidx sl)
      ++ slicesReads fileset_arr sig_shape bpp frame_header_bytes frame_footer_bytes
          tile_idx (sidx + 1) rest frames

/-- Read instructions of all tiles, in ascending tile order. -/
def groupsReads (fileset_arr : List (Nat × Nat × Nat × Nat)) (sig_shape : List Nat)
    (bpp frame_header_bytes frame_footer_bytes : Nat)
    (slices_arr : List (List Nat × List Nat)) :
    Nat → List (List Nat) → List ReadRangeEntry
  | _, [] => []
  | tidx, g :: gs =>
    slicesReads fileset_arr sig_shape bpp frame_header_bytes frame_footer_bytes
        tidx 0 slices_arr g
      ++ groupsReads fileset_arr sig_shape bpp frame_header_bytes frame_footer_bytes
          slices_arr (tidx + 1) gs

/-- Modelled from the spec: `default_get_read_ranges` (tiling.py, not under
src/), the pure Read-Range Compiler of spec section 4.3: enumerate the frames
of `[start_at_frame, stop_before_frame)`, drop the ROI-excluded ones, group
them by `depth`, and emit one Read Range per (group, signal sub-slice,
frame), computed from the explicit arguments only. -/
def default_get_read_ranges (start_at_frame stop_before_frame : Nat)
    (roi : Option (List Bool)) (depth : Nat)
    (slices_arr : List (List Nat × List Nat))
    (fileset_arr : List (Nat × Nat × Nat × Nat)) (sig_shape : List Nat)
    (bpp frame_header_bytes frame_footer_bytes : Nat) : List ReadRangeEntry :=
  let frames :=
    ((List.range (stop_before_frame - start_at_frame)).map (start_at_frame + ·)).filter
      (fun i => match roi with | none => true | some m => m.getD i false)
  groupsReads fileset_arr sig_shape bpp frame_header_bytes frame_footer_bytes slices_arr 0
    (chunksOf depth frames)

/-- Modelled from the spec: the fields of `TilingScheme` that
`FileSet.get_read_ranges` reads (`depth`, `slices_array`, `dataset_shape`).
tiling.py is not under src/. -/
structure TilingScheme where
  depth : Nat
  slices_array : List (List Nat × List Nat)
  dataset_shape : Shape
deriving DecidableEq, Repr

/-- The observable file data `get_as_arr` extracts, plus the path: everything
about a `File` except its open/closed handle state. -/
def fileData (f : File) : String × Nat × Nat × Nat :=
  (f.path, f.start_idx, f.end_idx, f.file_header_bytes)

/-- Enumeration loop of `FileSet.get_as_arr` (fileset.py lines 86-90). -/
def get_as_arr_go : Nat → List File → List (Nat × Nat × Nat × Nat)
  | _, [] => []
  | i, f :: r => (f.start_idx, f.end_idx, i, f.file_header_bytes) :: get_as_arr_go (i + 1) r

/-- Embedding of `FileSet.get_as_arr` (fileset.py lines 86-90): one row
`(start_idx, end_idx, idx, file_header_bytes)` per file. -/
def FileSet.get_as_arr (fs : FileSet) : List (Nat × Nat × Nat × Nat) :=
  get_as_arr_go 0 fs.files

/-- Embedding of `FileSet.get_read_ranges` (fileset.py lines 92-109): build
the compact file array and hand every input to `default_get_read_ranges`;
`dtype` enters only through its item size. -/
def FileSet.get_read_ranges (fs : FileSet) (start_at_frame stop_before_frame : Nat)
    (dtype_itemsize : Nat) (tiling_scheme : TilingScheme) (roi : Option (List Bool)) :
    List ReadRangeEntry :=
  default_get_read_ranges start_at_frame stop_before_frame roi tiling_scheme.depth
    tiling_scheme.slices_array fs.get_as_arr (Shape.sig tiling_scheme.dataset_shape)
    dtype_itemsize fs.frame_header_bytes fs.frame_footer_bytes

/-- Partition over frames [5, 10) of the example 2D-signal dataset. -/
def pExC3w : BasePartition :=
  ⟨metaEx, ⟨[5, 0, 0], ⟨[5, 2, 2], 2⟩⟩, ⟨[fileC], [fileC], false, 0, 0⟩, 5, 5⟩

/-- Dataset metadata with a one-dimensional signal shape. -/
def metaSig1 : DataSetMeta := ⟨⟨[10, 4], 1⟩, "float32"⟩

/-- Partition over frames [5, 10) of the 1D-signal dataset, as produced by
`BasePartition.init`. -/
def pExC3c : BasePartition :=
  ⟨metaSig1, ⟨[5, 0], ⟨[5, 4], 1⟩⟩, ⟨[fileC], [fileC], false, 0, 0⟩, 5, 5⟩

/-- The files of `fsAB` with their handles already open. -/
def fileAopen : File := ⟨"a", 0, 5, 0, true⟩

/-- Open-handle variant of `fileB`. -/
def fileBopen : File := ⟨"b", 5, 10, 0, true⟩

/-- The example FileSet after opening: same durable data as `fsAB`, all
hidden handle state different. -/
def fsABopen : FileSet := ⟨[fileAopen, fileBopen], [fileAopen, fileBopen], true, 0, 0⟩

/-- An example tiling scheme: depth 1, one signal sub-slice covering the
whole (2, 2) signal shape. -/
def tsEx : TilingScheme := ⟨1, [([0, 0], [2, 2])], ⟨[10, 2, 2], 2⟩⟩

/-! ### Claim C8: scoped acquisition of file handles -/

/-- C8: opening a FileSet is a scoped acquisition.  Entering the scope opens
every File Descriptor and marks the set open; exiting the scope (which in
Python runs `__exit__` on every path, normal or exceptional) closes every
File Descriptor and marks the set closed, for every possible body. -/
theorem fileset_scoped_open (fs : FileSet)
    (body : FileSet → Except String Unit × FileSet) :
    (∀ f ∈ fs.enter.files, f.isOpen = true) ∧ fs.enter.files_open = true ∧
    (∀ f ∈ (fs.withOpen body).2.files, f.isOpen = false) ∧
    (fs.withOpen body).2.files_open = false := by
  refine ⟨?_, rfl, ?_, rfl⟩
  · intro f hf
    simp only [FileSet.enter, List.mem_map] at hf
    obtain ⟨g, _, rfl⟩ := hf
    rfl
  · intro f hf
    simp only [FileSet.withOpen, FileSet.exit, List.mem_map] at hf
    obtain ⟨g, _, rfl⟩ := hf
    rfl

/-! ### Claim C9: PickUDF merge is an elementwise addition -/

/-- C9: `PickUDF.merge` adds the `src` intensity buffer elementwise into
`dest` over the full buffer extent, and merging an all-zero `src` buffer of
the same size leaves `dest` unchanged, so a partition contributing no frames
does not alter the global result. -/
theorem pick_merge_spec :
    (∀ (dest src : List Int) (i : Nat), i < dest.length → i < src.length →
      (PickUDF.merge ⟨dest⟩ ⟨src⟩).intensity.getD i 0 =
        dest.getD i 0 + src.getD i 0) ∧
    (∀ dest : List Int,
      PickUDF.merge ⟨dest⟩ ⟨List.replicate dest.length 0⟩ = ⟨dest⟩) := by
  constructor
  · intro dest src i hd hs
    have hz : i < (dest.zipWith (· + ·) src).length := by
      rw [List.length_zipWith]; omega
    simp only [PickUDF.merge]
    rw [List.getD_eq_getElem _ _ hz, List.getD_eq_getElem _ _ hd,
      List.getD_eq_getElem _ _ hs, List.getElem_zipWith]
  · intro dest
    simp only [PickUDF.merge, UDFBuffers.mk.injEq]
    induction dest with
    | nil => rfl
    | cons a t ih =>
      simpa [List.replicate_succ] using ih

/-- Witness for C9 at a concrete buffer pair. -/
theorem pick_merge_spec_witness :
    (PickUDF.merge ⟨[1, 2]⟩ ⟨[10, 20]⟩).intensity.getD 1 0 =
      ([1, 2] : List Int).getD 1 0 + ([10, 20] : List Int).getD 1 0 ∧
    PickUDF.merge ⟨[1, 2]⟩ ⟨List.replicate ([1, 2] : List Int).length 0⟩ = ⟨[1, 2]⟩ :=
  ⟨pick_merge_spec.1 [1, 2] [10, 20] 1 (by decide) (by decide),
    pick_merge_spec.2 [1, 2]⟩

/-- C10: the `Partition` constructor rejects any slice whose nav shape is not
one-dimensional with `ValueError`, so every successfully constructed
`Partition` (and `BasePartition`, which runs the same check first) satisfies
`slice.shape.nav.dims = 1` as an invariant. -/
theorem partition_nav_flat (m : DataSetMeta) (sl : Slice) :
    (∀ p, Partition.init m sl = .ok p → Shape.navDims p.slice.shape = 1) ∧
    (Shape.navDims sl.shape ≠ 1 →
      Partition.init m sl = .error (.valueError "nav dims should be flat")) ∧
    (∀ (fsd : FileSet) (st nf : Int) (bp : BasePartition),
      BasePartition.init m sl fsd st nf = .ok bp →
      Shape.navDims bp.slice.shape = 1) := by
  refine ⟨?_, ?_, ?_⟩
  · intro p hp
    unfold Partition.init at hp
    by_cases h : Shape.navDims sl.shape = 1
    · simp only [h] at hp
      simp at hp
      subst hp
      simpa using h
    · simp [h] at hp
  · intro h
    simp [Partition.init, h]
  · intro fsd st nf bp hbp
    unfold BasePartition.init at hbp
    by_cases h : Shape.navDims sl.shape = 1
    · simp only [h] at hbp
      rcases hget : fsd.get_for_range st (st + nf - 1) with e | fsub
      all_goals simp only [hget] at hbp
      · simp at hbp
      · by_cases hn : nf ≤ 0
        · simp [hn] at hbp
        · simp only [hn, if_neg, if_false] at hbp
          simp at hbp
          subst hbp
          simpa using h
    · simp [h] at hbp

/-- Witness for C10: the concrete partition over frames [0, 10). -/
theorem partition_nav_flat_witness : Shape.navDims pExC10.slice.shape = 1 :=
  (partition_nav_flat metaEx sliceNav1).1 pExC10 rfl

/-! ### Well-formedness lemmas for file lists -/

/-- Unfolding equation for `contiguousB` on two or more files. -/
theorem contiguousB_cons_cons (f g : File) (r : List File) :
    contiguousB (f :: g :: r) = ((f.end_idx == g.start_idx) && contiguousB (g :: r)) := rfl

/-- A one-element list is a well-formed cover iff the file is non-empty. -/
theorem filesOkB_one {f : File} (hf : f.start_idx < f.end_idx) : filesOkB [f] = true := by
  simp [filesOkB, contiguousB, hf]

/-- Every member of a well-formed cover is a non-empty file. -/
theorem filesOkB_mem {l : List File} (h : filesOkB l = true) {f : File} (hf : f ∈ l) :
    f.start_idx < f.end_idx := by
  simp only [filesOkB, Bool.and_eq_true, List.all_eq_true, decide_eq_true_eq] at h
  exact h.1 f hf

/-- In a well-formed cover, adjacent files meet exactly. -/
theorem filesOkB_pair {f g : File} {r : List File} (h : filesOkB (f :: g :: r) = true) :
    f.end_idx = g.start_idx := by
  simp only [filesOkB, Bool.and_eq_true, contiguousB_cons_cons, beq_iff_eq] at h
  exact h.2.1

/-- Extending a well-formed cover on the left. -/
theorem filesOkB_cons_intro {f g : File} {t : List File}
    (hf : f.start_idx < f.end_idx) (hfg : f.end_idx = g.start_idx)
    (ht : filesOkB (g :: t) = true) : filesOkB (f :: g :: t) = true := by
  simp only [filesOkB, List.all_cons, Bool.and_eq_true, decide_eq_true_eq,
    contiguousB_cons_cons, beq_iff_eq] at *
  exact ⟨⟨hf, ht.1⟩, hfg, ht.2⟩

/-- Decomposition of a well-formed cover: the head is non-empty, the tail is a
well-formed cover, and the head ends at or before every tail file starts. -/
theorem filesOkB_cons {f : File} {r : List File} (h : filesOkB (f :: r) = true) :
    f.start_idx < f.end_idx ∧ filesOkB r = true ∧ ∀ g ∈ r, f.end_idx ≤ g.start_idx := by
  induction r generalizing f with
  | nil =>
    refine ⟨filesOkB_mem h (by simp), rfl, by simp⟩
  | cons g r2 ih =>
    have hf : f.start_idx < f.end_idx := filesOkB_mem h (by simp)
    have hfg : f.end_idx = g.start_idx := filesOkB_pair h
    have hg : filesOkB (g :: r2) = true := by
      simp only [filesOkB, List.all_cons, Bool.and_eq_true, contiguousB_cons_cons] at h ⊢
      exact ⟨h.1.2, h.2.2⟩
    refine ⟨hf, hg, ?_⟩
    intro x hx
    rcases List.mem_cons.mp hx with rfl | hx2
    · omega
    · have h1 := (ih hg).2.2 x hx2
      have h2 : g.start_idx < g.end_idx := (ih hg).1
      omega

/-- Dropping files preserves well-formedness. -/
theorem filesOkB_drop {l : List File} (h : filesOkB l = true) (n : Nat) :
    filesOkB (l.drop n) = true := by
  induction n generalizing l with
  | zero => simpa using h
  | succ k ih =>
    cases l with
    | nil => simpa using h
    | cons f r => rw [List.drop_succ_cons]; exact ih (filesOkB_cons h).2.1

/-- Taking a prefix of files preserves well-formedness. -/
theorem filesOkB_takeWhile {l : List File} (p : File → Bool) (h : filesOkB l = true) :
    filesOkB (l.takeWhile p) = true := by
  induction l with
  | nil => rfl
  | cons f r ih =>
    obtain ⟨hf, hr, _⟩ := filesOkB_cons h
    by_cases hp : p f = true
    · cases r with
      | nil => simpa [List.takeWhile_cons, hp] using filesOkB_one hf
      | cons g r2 =>
        by_cases hpg : p g = true
        · have hg : (g :: r2).takeWhile p = g :: r2.takeWhile p := by
            simp [List.takeWhile_cons, hpg]
          have hih := ih hr
          rw [hg] at hih
          have : (f :: g :: r2).takeWhile p = f :: g :: r2.takeWhile p := by
            simp [List.takeWhile_cons, hp, hpg]
          rw [this]
          exact filesOkB_cons_intro hf (filesOkB_pair h) hih
        · have : (f :: g :: r2).takeWhile p = [f] := by
            simp [List.takeWhile_cons, hp, hpg]
          rw [this]
          exact filesOkB_one hf
    · simp [List.takeWhile_cons, hp, filesOkB, contiguousB]

/-- A well-formed cover is sorted (non-strictly) by `start_idx`. -/
theorem startChainB_of_filesOkB {l : List File} (h : filesOkB l = true) :
    startChainB l = true := by
  induction l with
  | nil => rfl
  | cons f r ih =>
    cases r with
    | nil => rfl
    | cons g r2 =>
      obtain ⟨hf, hr, _⟩ := filesOkB_cons h
      have hfg := filesOkB_pair h
      show (decide (f.start_idx ≤ g.start_idx) && startChainB (g :: r2)) = true
      have := ih hr
      simp only [this, Bool.and_true, decide_eq_true_eq]
      omega

/-- The tail of a sorted list is sorted. -/
theorem startChainB_tail {f : File} {r : List File} (h : startChainB (f :: r) = true) :
    startChainB r = true := by
  cases r with
  | nil => rfl
  | cons g r2 =>
    have : (decide (f.start_idx ≤ g.start_idx) && startChainB (g :: r2)) = true := h
    simp only [Bool.and_eq_true] at this
    exact this.2

/-- Sorting a list that is already sorted by `start_idx` is the identity. -/
theorem sortByStart_eq_self {l : List File} (h : startChainB l = true) :
    sortByStart l = l := by
  induction l with
  | nil => rfl
  | cons f r ih =>
    have hr := startChainB_tail h
    show insertFile f (sortByStart r) = f :: r
    rw [ih hr]
    cases r with
    | nil => rfl
    | cons g r2 =>
      have hle : f.start_idx ≤ g.start_idx := by
        have : (decide (f.start_idx ≤ g.start_idx) && startChainB (g :: r2)) = true := h
        simp only [Bool.and_eq_true, decide_eq_true_eq] at this
        exact this.1
      simp [insertFile, hle]

/-- `FileSet.__init__` succeeds on a non-empty well-formed cover and stores
the given file list as both the files and the (already sorted) tree. -/
theorem fileset_init_ok {l : List File} (fhb ffb : Nat) (hne : l ≠ [])
    (hv : filesOkB l = true) :
    FileSet.init l fhb ffb = .ok ⟨l, l, false, fhb, ffb⟩ := by
  have hE : l.isEmpty = false := by
    cases l with
    | nil => exact absurd rfl hne
    | cons f r => rfl
  have hs : sortByStart l = l := sortByStart_eq_self (startChainB_of_filesOkB hv)
  simp [FileSet.init, FileTree.make, hE, hs, hv]

/-- Whenever `FileSet.__init__` succeeds, the resulting set holds exactly the
given files and starts closed. -/
theorem fileset_init_files {l : List File} {fhb ffb : Nat} {fs2 : FileSet}
    (h : FileSet.init l fhb ffb = .ok fs2) : fs2.files = l ∧ fs2.files_open = false := by
  unfold FileSet.init at h
  split at h
  · simp at h
  · rcases hm : FileTree.make l with _ | t
    all_goals rw [hm] at h
    · simp at h
    · simp only [Except.ok.injEq] at h
      subst h
      exact ⟨rfl, rfl⟩

/-- On a well-formed cover, `takeWhile (start_idx <= b)` equals the filter for
the same predicate: once one file starts after `b`, all later ones do. -/
theorem takeWhile_le_eq_filter {l : List File} (b : Int) (h : filesOkB l = true) :
    l.takeWhile (fun f => decide ((f.start_idx : Int) ≤ b))
      = l.filter (fun f => decide ((f.start_idx : Int) ≤ b)) := by
  induction l with
  | nil => rfl
  | cons f r ih =>
    obtain ⟨hf, hr, hbd⟩ := filesOkB_cons h
    by_cases hB : (f.start_idx : Int) ≤ b
    · simp [List.takeWhile_cons, List.filter_cons, hB, ih hr]
    · have hrest : ∀ g ∈ r, ¬((g.start_idx : Int) ≤ b) := by
        intro g hg
        have h1 := hbd g hg
        have h2 : (f.end_idx : Int) ≤ (g.start_idx : Int) := by exact_mod_cast h1
        have h3 : (f.start_idx : Int) < (f.end_idx : Int) := by exact_mod_cast hf
        omega
      have hfil : r.filter (fun f => decide ((f.start_idx : Int) ≤ b)) = [] := by
        rw [List.filter_eq_nil_iff]
        intro g hg
        simpa using hrest g hg
      simp [List.takeWhile_cons, List.filter_cons, hB, hfil]

/-- Key characterization: on a well-formed cover, the lower-bound search plus
the forward scan of `_get_files_for_range` computes exactly the filter for
files overlapping the closed interval `[a, b]`. -/
theorem drop_takeWhile_eq_filter (l : List File) (a b : Int) (h : filesOkB l = true) :
    (l.drop (search_start l a)).takeWhile (fun f => decide ((f.start_idx : Int) ≤ b))
      = l.filter (overlapsB a b) := by
  induction l with
  | nil => rfl
  | cons f r ih =>
    obtain ⟨hf, hr, hbd⟩ := filesOkB_cons h
    by_cases hA : a < (f.end_idx : Int)
    · have hfind : search_start (f :: r) a = 0 := by
        simp [search_start, List.findIdx_cons, hA]
      rw [hfind, List.drop_zero]
      have hallp : ∀ g ∈ r, a < (g.end_idx : Int) := by
        intro g hg
        have h1 : (f.end_idx : Int) ≤ (g.start_idx : Int) := by exact_mod_cast hbd g hg
        have h2 : (g.start_idx : Int) < (g.end_idx : Int) := by
          exact_mod_cast filesOkB_mem hr hg
        omega
      have hcongr : r.filter (overlapsB a b)
          = r.filter (fun f => decide ((f.start_idx : Int) ≤ b)) := by
        apply List.filter_congr
        intro g hg
        simp [overlapsB, hallp g hg]
      by_cases hB : (f.start_idx : Int) ≤ b
      · have hover : overlapsB a b f = true := by simp [overlapsB, hA, hB]
        simp [List.takeWhile_cons, List.filter_cons, hB, hover, hcongr,
          takeWhile_le_eq_filter b hr]
      · have hover : overlapsB a b f = false := by simp [overlapsB, hB]
        have hrest : r.filter (fun f => decide ((f.start_idx : Int) ≤ b)) = [] := by
          rw [List.filter_eq_nil_iff]
          intro g hg
          have h1 : (f.end_idx : Int) ≤ (g.start_idx : Int) := by exact_mod_cast hbd g hg
          have h3 : (f.start_idx : Int) < (f.end_idx : Int) := by exact_mod_cast hf
          simp only [decide_eq_true_eq]
          omega
        simp [List.takeWhile_cons, List.filter_cons, hB, hover, hcongr, hrest]
    · have hfind : search_start (f :: r) a = search_start r a + 1 := by
        simp [search_start, List.findIdx_cons, hA]
      have hover : overlapsB a b f = false := by simp [overlapsB, hA]
      rw [hfind, List.drop_succ_cons]
      simp only [List.filter_cons, hover, Bool.false_eq_true, if_false]
      exact ih hr

/-- Coverage: any frame between the first file's start and the last file's
end is contained in some file of a well-formed cover. -/
theorem covered_mem {l : List File} (h : filesOkB l = true) (hne : l ≠ []) (x : Int)
    (hlo : ((l.headD dFile).start_idx : Int) ≤ x)
    (hhi : x < ((l.getLastD dFile).end_idx : Int)) :
    ∃ f ∈ l, (f.start_idx : Int) ≤ x ∧ x < (f.end_idx : Int) := by
  induction l with
  | nil => exact absurd rfl hne
  | cons f r ih =>
    by_cases hx : x < (f.end_idx : Int)
    · exact ⟨f, List.mem_cons_self f r, by simpa using hlo, hx⟩
    · cases r with
      | nil => exact absurd hhi hx
      | cons g r2 =>
        obtain ⟨hf, hr, _⟩ := filesOkB_cons h
        have hfg : f.end_idx = g.start_idx := filesOkB_pair h
        have hlo2 : (((g :: r2).headD dFile).start_idx : Int) ≤ x := by
          simp only [List.headD_cons] at *
          have : (f.end_idx : Int) = (g.start_idx : Int) := by exact_mod_cast hfg
          omega
        have hhi2 : x < (((g :: r2).getLastD dFile).end_idx : Int) := hhi
        obtain ⟨w, hw, h1, h2⟩ := ih hr (by simp) hlo2 hhi2
        exact ⟨w, List.mem_cons_of_mem f hw, h1, h2⟩

/-- `_get_files_for_range` on a valid FileSet computes the overlap filter,
failing exactly when no file overlaps `[start, stop]`. -/
theorem get_files_for_range_eq (fs : FileSet) (a b : Int)
    (hv : filesOkB fs.files = true) (ht : fs.tree = fs.files) :
    fs.get_files_for_range a b =
      (if (fs.files.filter (overlapsB a b)).isEmpty
        then .error (.assertionError "len(files) > 0")
        else .ok (fs.files.filter (overlapsB a b))) := by
  unfold FileSet.get_files_for_range FileSet.files_from
  rw [ht, drop_takeWhile_eq_filter fs.files a b hv]

/-- Whenever `get_for_range` succeeds on a valid FileSet, the result holds
exactly the files overlapping the closed interval `[a, b]`. -/
theorem get_for_range_ok_files {fs : FileSet} {a b : Int} {fs2 : FileSet}
    (hv : filesOkB fs.files = true) (ht : fs.tree = fs.files)
    (h : fs.get_for_range a b = .ok fs2) :
    fs2.files = fs.files.filter (overlapsB a b) ∧ fs2.files ≠ [] := by
  unfold FileSet.get_for_range at h
  rw [get_files_for_range_eq fs a b hv ht] at h
  by_cases he : (fs.files.filter (overlapsB a b)).isEmpty
  · rw [if_pos he] at h
    simp at h
  · rw [if_neg he] at h
    simp only at h
    refine ⟨(fileset_init_files h).1, ?_⟩
    rw [(fileset_init_files h).1]
    simpa [List.isEmpty_iff] using he

/-! ### Claim C2: get_for_range returns exactly the overlapping files -/

/-- C2: on a FileSet built from a contiguous, non-overlapping, non-empty
cover, for `a <= b` inside the covered frame range `get_for_range(a, b)`
succeeds and returns exactly the files having at least one frame overlapping
the closed interval `[a, b]`, in ascending `start_idx` order, never empty;
and when no file overlaps (range outside the covered frames) the call fails
with the construction-time assertion instead. -/
theorem get_for_range_spec (fs : FileSet) (a b : Int)
    (hv : filesOkB fs.files = true) (ht : fs.tree = fs.files) (hne : fs.files ≠ []) :
    (a ≤ b → ((fs.files.headD dFile).start_idx : Int) ≤ a →
      b < ((fs.files.getLastD dFile).end_idx : Int) →
      fs.get_for_range a b =
        .ok ⟨fs.files.filter (overlapsB a b), fs.files.filter (overlapsB a b), false,
          fs.frame_header_bytes, fs.frame_footer_bytes⟩ ∧
      fs.files.filter (overlapsB a b) ≠ [] ∧
      startChainB (fs.files.filter (overlapsB a b)) = true) ∧
    ((∀ f ∈ fs.files, overlapsB a b f = false) →
      fs.get_for_range a b = .error (.assertionError "len(files) > 0")) := by
  have hvfil : filesOkB (fs.files.filter (overlapsB a b)) = true := by
    rw [← drop_takeWhile_eq_filter fs.files a b hv]
    exact filesOkB_takeWhile _ (filesOkB_drop hv _)
  constructor
  · intro hab hlo hhi
    obtain ⟨w, hw, hw1, hw2⟩ := covered_mem hv hne a hlo (by omega)
    have hmem : w ∈ fs.files.filter (overlapsB a b) := by
      rw [List.mem_filter]
      refine ⟨hw, ?_⟩
      simp only [overlapsB, Bool.and_eq_true, decide_eq_true_eq]
      omega
    have hne2 : fs.files.filter (overlapsB a b) ≠ [] := by
      intro hnil
      rw [hnil] at hmem
      simp at hmem
    have hE : (fs.files.filter (overlapsB a b)).isEmpty = false := by
      cases hfil : fs.files.filter (overlapsB a b) with
      | nil => exact absurd hfil hne2
      | cons x xs => rfl
    refine ⟨?_, hne2, startChainB_of_filesOkB hvfil⟩
    unfold FileSet.get_for_range
    rw [get_files_for_range_eq fs a b hv ht, hE]
    simp only [Bool.false_eq_true, if_false]
    exact fileset_init_ok fs.frame_header_bytes fs.frame_footer_bytes hne2 hvfil
  · intro hall
    have hfil : fs.files.filter (overlapsB a b) = [] := by
      rw [List.filter_eq_nil_iff]
      intro g hg
      simp [hall g hg]
    unfold FileSet.get_for_range
    rw [get_files_for_range_eq fs a b hv ht, hfil]
    rfl

/-- Witness for C2: on the two-file set, the range [2, 7] selects both files. -/
theorem get_for_range_spec_witness :
    fsAB.get_for_range 2 7 =
      .ok ⟨fsAB.files.filter (overlapsB 2 7), fsAB.files.filter (overlapsB 2 7), false,
        fsAB.frame_header_bytes, fsAB.frame_footer_bytes⟩ ∧
    fsAB.files.filter (overlapsB 2 7) ≠ [] ∧
    startChainB (fsAB.files.filter (overlapsB 2 7)) = true :=
  (get_for_range_spec fsAB 2 7 (by decide) rfl (by simp [fsAB])).1
    (by decide) (by decide) (by decide)

/-! ### Claim C5: the FileSet a BasePartition derives at construction -/

/-- C5: for a valid dataset-wide FileSet and `num_frames >= 1`, the FileSet a
`BasePartition` derives at construction contains exactly the File Descriptors
having at least one frame in the half-open partition range
`[start_frame, start_frame + num_frames)`, and it is never empty. -/
theorem base_partition_fileset_exact (m : DataSetMeta) (sl : Slice) (fs : FileSet)
    (start num : Int) (p : BasePartition)
    (hv : filesOkB fs.files = true) (ht : fs.tree = fs.files) (hnum : 1 ≤ num)
    (hok : BasePartition.init m sl fs start num = .ok p) :
    p.fileset.files =
      fs.files.filter (fun f => decide (start < (f.end_idx : Int)) &&
        decide ((f.start_idx : Int) < start + num)) ∧
    p.fileset.files ≠ [] := by
  unfold BasePartition.init at hok
  split at hok
  · simp at hok
  · rcases hget : fs.get_for_range start (start + num - 1) with e | fsub
    all_goals rw [hget] at hok
    · simp at hok
    · simp only at hok
      rw [if_neg (by omega)] at hok
      simp only [Except.ok.injEq] at hok
      subst hok
      obtain ⟨hfiles, hne2⟩ := get_for_range_ok_files hv ht hget
      have hcongr : fs.files.filter (overlapsB start (start + num - 1))
          = fs.files.filter (fun f => decide (start < (f.end_idx : Int)) &&
              decide ((f.start_idx : Int) < start + num)) := by
        apply List.filter_congr
        intro g _
        simp only [overlapsB]
        congr 1
        simp only [decide_eq_decide]
        omega
      exact ⟨hfiles.trans hcongr, hne2⟩

/-- Witness for C5: the partition over frames [3, 7) of the two-file set
keeps exactly the files overlapping [3, 7). -/
theorem base_partition_fileset_exact_witness :
    pExC5.fileset.files =
      fsAB.files.filter (fun f => decide ((3 : Int) < (f.end_idx : Int)) &&
        decide ((f.start_idx : Int) < 3 + 4)) ∧
    pExC5.fileset.files ≠ [] :=
  base_partition_fileset_exact metaEx sliceP3 fsAB 3 4 pExC5
    (by decide) rfl (by decide) rfl

/-! ### Claim C4: rejection of non-positive num_frames -/

/-- C4 (amended): for every `num_frames <= 0`, constructing a `BasePartition`
fails before any I/O is attempted; on a flat-nav slice the failure is the
invalid-argument `ValueError` whenever the file-range restriction to
`[start_frame, start_frame + num_frames)` — which the constructor performs
first — succeeds, and is that restriction's own error (its non-empty
assertion, propagated unchanged) whenever the restriction fails. -/
theorem base_partition_init_nonpositive (m : DataSetMeta) (sl : Slice) (fs : FileSet)
    (start num : Int) (hnum : num ≤ 0) :
    exceptIsOk (BasePartition.init m sl fs start num) = false ∧
    (∀ fsub, fs.get_for_range start (start + num - 1) = .ok fsub →
      Shape.navDims sl.shape = 1 →
      BasePartition.init m sl fs start num =
        .error (.valueError ("invalid number of frames: " ++ toString num))) ∧
    (∀ e, fs.get_for_range start (start + num - 1) = .error e →
      Shape.navDims sl.shape = 1 →
      BasePartition.init m sl fs start num = .error e) := by
  refine ⟨?_, ?_, ?_⟩
  · unfold BasePartition.init
    split
    · rfl
    · rcases hget : fs.get_for_range start (start + num - 1) with e | fsub
      all_goals simp only [hget]
      · rfl
      · simp [hnum, exceptIsOk]
  · intro fsub hget hnav
    unfold BasePartition.init
    rw [if_neg (by omega), hget]
    simp [hnum]
  · intro e hget hnav
    unfold BasePartition.init
    rw [if_neg (by omega), hget]

/-- Witness for C4, applying the theorem on both branches: with
`start_frame = 3`, `num_frames = 0` on the one-file set the range
restriction succeeds and construction fails with the invalid-argument
error; with `start_frame = 0`, `num_frames = 0` the restriction fails and
its assertion error is propagated unchanged. -/
theorem base_partition_init_nonpositive_witness :
    exceptIsOk (BasePartition.init metaEx sliceNav1 fsC 3 0) = false ∧
    BasePartition.init metaEx sliceNav1 fsC 3 0 =
      .error (.valueError ("invalid number of frames: " ++ toString (0 : Int))) ∧
    BasePartition.init metaEx sliceNav1 fsC 0 0 =
      .error (.assertionError "len(files) > 0") := by
  have h1 := base_partition_init_nonpositive metaEx sliceNav1 fsC 3 0 (by decide)
  have h2 := base_partition_init_nonpositive metaEx sliceNav1 fsC 0 0 (by decide)
  exact ⟨h1.1, h1.2.1 ⟨[fileC], [fileC], false, 0, 0⟩ rfl rfl,
    h2.2.2 (.assertionError "len(files) > 0") rfl rfl⟩

/-- Counterexample for C4 as stated: with `start_frame = 0`,
`num_frames = 0`, construction fails with the `AssertionError` raised by the
fileset range restriction (performed before the `num_frames` check), not with
the invalid-argument `ValueError` the claim promises as the eagerly detected
first failure. -/
theorem base_partition_init_nonpositive_cex :
    BasePartition.init metaEx sliceNav1 fsC 0 0 =
      .error (.assertionError "len(files) > 0") ∧
    ∀ s, BasePartition.init metaEx sliceNav1 fsC 0 0 ≠ .error (.valueError s) := by
  have h1 : BasePartition.init metaEx sliceNav1 fsC 0 0 =
      .error (.assertionError "len(files) > 0") := rfl
  refine ⟨h1, ?_⟩
  intro s hs
  rw [h1] at hs
  simp at hs

/-! ### Claim C7: FileSet construction validation -/

/-- C7: FileSet construction fails when the file list is empty (the
constructor's assertion) and when the files cannot be ordered into a
gap-free, non-overlapping cover of a contiguous frame range (the tree build
returns nothing and `ValueError` is raised); it succeeds otherwise. -/
theorem fileset_init_spec (files : List File) (fhb ffb : Nat) :
    (exceptIsOk (FileSet.init files fhb ffb) = true ↔
      (files ≠ [] ∧ filesOkB (sortByStart files) = true)) ∧
    (files = [] →
      FileSet.init files fhb ffb = .error (.assertionError "len(files) > 0")) := by
  constructor
  · cases files with
    | nil => simp [FileSet.init, exceptIsOk]
    | cons f r =>
      by_cases hok : filesOkB (sortByStart (f :: r)) = true
      · simp [FileSet.init, FileTree.make, hok, exceptIsOk]
      · simp only [Bool.not_eq_true] at hok
        simp [FileSet.init, FileTree.make, hok, exceptIsOk]
  · intro h
    subst h
    rfl

/-! ### Claim C1: make_slices partitioning of the nav axis -/

/-- Closed form of the `make_slices` loop: with positive step `f` and enough
fuel, starting at `s` it emits one entry per index below
`ceil((num_frames - s) / f)`, the `i`-th starting at `s + i * f`. -/
theorem make_slices_go_eq (sig : List Nat) (n f : Nat) (hf : 0 < f) :
    ∀ (fuel s : Nat), (n - s + f - 1) / f ≤ fuel →
      make_slices_go sig n f fuel s =
        (List.range ((n - s + f - 1) / f)).map (fun i => sliceEntry sig n f (s + i * f)) := by
  intro fuel
  induction fuel with
  | zero =>
    intro s hs
    have h0 : (n - s + f - 1) / f = 0 := Nat.le_zero.mp hs
    rw [h0]
    rfl
  | succ k ih =>
    intro s hs
    by_cases hlt : s < n
    · have hceil : (n - s + f - 1) / f = (n - s - 1) / f + 1 := by
        have h1 : n - s + f - 1 = (n - s - 1) + f := by omega
        rw [h1, Nat.add_div_right _ hf]
      have hnext : (n - (s + f) + f - 1) / f = (n - s - 1) / f := by
        by_cases hdf : n - s < f
        · have h1 : n - (s + f) + f - 1 = f - 1 := by omega
          rw [h1, Nat.div_eq_of_lt (by omega), Nat.div_eq_of_lt (by omega : n - s - 1 < f)]
        · have h1 : n - (s + f) + f - 1 = n - s - 1 := by omega
          rw [h1]
      have hunf : make_slices_go sig n f (k + 1) s =
          sliceEntry sig n f s :: make_slices_go sig n f k (s + f) := by
        simp only [make_slices_go, if_pos hlt]
        rfl
      rw [hunf, hceil, List.range_succ_eq_map, List.map_cons]
      congr 1
      · simp [sliceEntry]
      · have hfuel2 : (n - (s + f) + f - 1) / f ≤ k := by
          rw [hnext]
          omega
        rw [ih (s + f) hfuel2, hnext, List.map_map]
        apply List.map_congr_left
        intro i _
        simp only [Function.comp_apply]
        congr 1
        rw [Nat.succ_mul]
        omega
    · have h0 : (n - s + f - 1) / f = 0 := by
        have h1 : n - s = 0 := by omega
        rw [h1]
        exact Nat.div_eq_of_lt (by omega)
      rw [h0]
      simp [make_slices_go, hlt]

/-- C1 (amended): for every shape and partition count `k >= 1`, with
`f = max(1, num_frames // k)`, `make_slices` yields exactly
`ceil(num_frames / f)` frame ranges — a count that can exceed `k` — that are
non-empty, ascending, pairwise non-overlapping, cover exactly
`[0, num_frames)`, all of size `f` except possibly the smaller last one. -/
theorem make_slices_spec (shape : Shape) (k : Nat) (hk : 1 ≤ k) :
    let n := shape.navSize
    let f := f_per_part n k
    let L := Partition.make_slices shape k
    L.length = (n + f - 1) / f ∧
    (∀ i (h : i < L.length),
      (L.get ⟨i, h⟩).2.1 = i * f ∧ (L.get ⟨i, h⟩).2.2 = min (i * f + f) n) ∧
    (∀ i (h : i < L.length), (L.get ⟨i, h⟩).2.1 < (L.get ⟨i, h⟩).2.2) ∧
    (∀ i j (hi : i < L.length) (hj : j < L.length) (x : Nat), i < j →
      x < (L.get ⟨i, hi⟩).2.2 → (L.get ⟨j, hj⟩).2.1 ≤ x → False) ∧
    (∀ x, x < n ↔ ∃ i, ∃ h : i < L.length,
      (L.get ⟨i, h⟩).2.1 ≤ x ∧ x < (L.get ⟨i, h⟩).2.2) ∧
    (∀ i (h : i + 1 < L.length),
      (L.get ⟨i, Nat.lt_of_succ_lt h⟩).2.2 - (L.get ⟨i, Nat.lt_of_succ_lt h⟩).2.1 = f) ∧
    (∀ i (h : i < L.length), (L.get ⟨i, h⟩).2.2 - (L.get ⟨i, h⟩).2.1 ≤ f) ∧
    (∀ i j (hi : i < L.length) (hj : j < L.length), i < j →
      (L.get ⟨i, hi⟩).2.1 < (L.get ⟨j, hj⟩).2.1) := by
  intro n f L
  have hf : 0 < f := Nat.lt_of_lt_of_le Nat.one_pos (Nat.le_max_left 1 (n / k))
  have hfuel : (n + f - 1) / f ≤ n := by
    by_cases hn : n = 0
    · rw [hn, Nat.zero_add, Nat.div_eq_of_lt (by omega)]
    · have h1 : n + f - 1 = (n - 1) + f := by omega
      rw [h1, Nat.add_div_right _ hf]
      have h2 := Nat.div_le_self (n - 1) f
      omega
  have hL : L = (List.range ((n + f - 1) / f)).map (fun i => sliceEntry shape.sig n f (i * f)) := by
    show Partition.make_slices shape k = _
    unfold Partition.make_slices
    rw [make_slices_go_eq shape.sig shape.navSize (f_per_part shape.navSize k) hf
      shape.navSize 0 (by simpa using hfuel)]
    simp
  have hkey : ∀ i, i < (n + f - 1) / f → i * f < n := by
    intro i hi
    by_cases hn : n = 0
    · rw [hn, Nat.zero_add, Nat.div_eq_of_lt (by omega)] at hi
      exact absurd hi (by omega)
    · have h1 : n + f - 1 = (n - 1) + f := by omega
      rw [h1, Nat.add_div_right _ hf] at hi
      have h2 : i ≤ (n - 1) / f := by omega
      have h3 : i * f ≤ (n - 1) / f * f := Nat.mul_le_mul_right f h2
      have h4 : (n - 1) / f * f ≤ n - 1 := Nat.div_mul_le_self _ _
      omega
  have hlen : L.length = (n + f - 1) / f := by
    rw [hL, List.length_map, List.length_range]
  have hget : ∀ i (h : i < L.length), L.get ⟨i, h⟩ = sliceEntry shape.sig n f (i * f) := by
    intro i h
    have h2 : i < (n + f - 1) / f := by rwa [hlen] at h
    simp only [hL, List.get_eq_getElem, List.getElem_map, List.getElem_range]
  refine ⟨hlen, ?_, ?_, ?_, ?_, ?_, ?_, ?_⟩
  · intro i h
    rw [hget i h]
    exact ⟨rfl, rfl⟩
  · intro i h
    rw [hget i h]
    have h2 : i < (n + f - 1) / f := by rwa [hlen] at h
    have h3 := hkey i h2
    show i * f < min (i * f + f) n
    omega
  · intro i j hi hj x hij hx1 hx2
    rw [hget i hi] at hx1
    rw [hget j hj] at hx2
    have h5 : (i + 1) * f ≤ j * f := Nat.mul_le_mul_right f (by omega)
    have h6 : (i + 1) * f = i * f + f := by rw [Nat.add_mul]; omega
    change x < min (i * f + f) n at hx1
    change j * f ≤ x at hx2
    omega
  · intro x
    constructor
    · intro hx
      refine ⟨x / f, ?_, ?_⟩
      · rw [hlen]
        have h1 : n + f - 1 = (n - 1) + f := by omega
        rw [h1, Nat.add_div_right _ hf]
        have h2 : x / f ≤ (n - 1) / f := Nat.div_le_div_right (by omega)
        omega
      · rw [hget]
        have h3 : x / f * f ≤ x := Nat.div_mul_le_self x f
        have h4 := Nat.div_add_mod x f
        have h5 : x % f < f := Nat.mod_lt x hf
        refine ⟨h3, ?_⟩
        show x < min (x / f * f + f) n
        have h6 : f * (x / f) = x / f * f := Nat.mul_comm f (x / f)
        omega
    · rintro ⟨i, h, h1, h2⟩
      rw [hget i h] at h2
      change x < min (i * f + f) n at h2
      omega
  · intro i h
    rw [hget i (Nat.lt_of_succ_lt h)]
    have h2 : i + 1 < (n + f - 1) / f := by rwa [hlen] at h
    have h3 := hkey (i + 1) h2
    have h4 : (i + 1) * f = i * f + f := by rw [Nat.add_mul]; omega
    show min (i * f + f) n - i * f = f
    omega
  · intro i h
    rw [hget i h]
    show min (i * f + f) n - i * f ≤ f
    omega
  · intro i j hi hj hij
    rw [hget i hi, hget j hj]
    have h5 : (i + 1) * f ≤ j * f := Nat.mul_le_mul_right f (by omega)
    have h6 : (i + 1) * f = i * f + f := by rw [Nat.add_mul]; omega
    show i * f < j * f
    omega

/-- Witness for C1 at the 10-frame shape split into 2 partitions. -/
theorem make_slices_spec_witness :
    (Partition.make_slices ⟨[10, 2, 2], 2⟩ 2).length = 2 := by
  have h := make_slices_spec ⟨[10, 2, 2], 2⟩ 2 (by decide)
  exact h.1.trans rfl

/-- Counterexample for C1 as stated: the 10-frame shape split into `k = 3`
partitions yields 4 ranges (`f_per_part = 3`, so ranges [0,3), [3,6), [6,9),
[9,10)), more than `k`. -/
theorem make_slices_count_cex :
    (Partition.make_slices ⟨[10, 2, 2], 2⟩ 3).length = 4 ∧
    ¬((Partition.make_slices ⟨[10, 2, 2], 2⟩ 3).length ≤ 3) := by
  refine ⟨rfl, ?_⟩
  intro h
  have : (Partition.make_slices ⟨[10, 2, 2], 2⟩ 3).length = 4 := rfl
  omega

/-! ### Claim C3: get_macrotile on an all-excluding ROI -/

/-- C3 (amended): for every partition whose signal shape is two-dimensional
and every ROI excluding all of its frames, `get_macrotile` returns (rather
than failing) a well-formed zero-frame tile: nav extent 0, signal extent
equal to the partition's signal shape, origin at the partition's start
frame. -/
theorem get_macrotile_empty_roi (p : BasePartition) (roi : Option (List Bool))
    (hsig : p.slice.shape.sig_dims = 2) (hdims : p.slice.shape.dims.length = 3)
    (hempty : surviving_frames p.start_frame p.num_frames roi = 0) :
    Shape.navSize (p.get_macrotile roi).tile_slice.shape = 0 ∧
    Shape.sig (p.get_macrotile roi).tile_slice.shape = Shape.sig p.slice.shape ∧
    (p.get_macrotile roi).tile_slice.origin = [p.slice.origin.headD 0, 0, 0] ∧
    (p.get_macrotile roi).tile_slice.origin.length =
      (p.get_macrotile roi).tile_slice.shape.dims.length ∧
    (p.get_macrotile roi).data_shape = 0 :: Shape.sig p.slice.shape := by
  have hsl : (Shape.sig p.slice.shape).length = 2 := by
    unfold Shape.sig
    rw [List.length_drop]
    omega
  obtain ⟨a, b, hab⟩ : ∃ a b, Shape.sig p.slice.shape = [a, b] := by
    cases hS : Shape.sig p.slice.shape with
    | nil => rw [hS] at hsl; simp at hsl
    | cons x t =>
      cases t with
      | nil => rw [hS] at hsl; simp at hsl
      | cons y t2 =>
        cases t2 with
        | nil => exact ⟨x, y, rfl⟩
        | cons z t3 => rw [hS] at hsl; simp at hsl
  unfold BasePartition.get_macrotile
  rw [if_pos hempty, hab]
  refine ⟨?_, ?_, rfl, ?_, rfl⟩
  · simp [Shape.navSize, Shape.nav]
  · simp [Shape.sig]
  · rfl

/-- Witness for C3 on the partition over frames [5, 10) with an all-false
ROI. -/
theorem get_macrotile_empty_roi_witness :
    Shape.navSize (pExC3w.get_macrotile (some (List.replicate 10 false))).tile_slice.shape = 0 ∧
    Shape.sig (pExC3w.get_macrotile (some (List.replicate 10 false))).tile_slice.shape =
      Shape.sig pExC3w.slice.shape ∧
    (pExC3w.get_macrotile (some (List.replicate 10 false))).tile_slice.origin =
      [pExC3w.slice.origin.headD 0, 0, 0] ∧
    (pExC3w.get_macrotile (some (List.replicate 10 false))).tile_slice.origin.length =
      (pExC3w.get_macrotile (some (List.replicate 10 false))).tile_slice.shape.dims.length ∧
    (pExC3w.get_macrotile (some (List.replicate 10 false))).data_shape =
      0 :: Shape.sig pExC3w.slice.shape :=
  get_macrotile_empty_roi pExC3w (some (List.replicate 10 false)) rfl rfl (by decide)

/-- Counterexample for C3 as stated: on a genuinely constructible partition
whose signal shape is one-dimensional, with an ROI excluding all of its
frames, the tile returned by `get_macrotile` (built with hard-coded
`sig_dims=2` and a 3-tuple origin) has nav extent 1, a signal shape
different from the partition's, and an origin whose length does not match
its shape's dimensionality — it is not the well-formed zero-frame tile the
claim promises. -/
theorem get_macrotile_empty_roi_cex :
    BasePartition.init metaSig1 ⟨[5, 0], ⟨[5, 4], 1⟩⟩
        ⟨[fileC], [fileC], false, 0, 0⟩ 5 5 = .ok pExC3c ∧
    surviving_frames pExC3c.start_frame pExC3c.num_frames
      (some (List.replicate 10 false)) = 0 ∧
    ¬(Shape.navSize
        (pExC3c.get_macrotile (some (List.replicate 10 false))).tile_slice.shape = 0 ∧
      Shape.sig (pExC3c.get_macrotile (some (List.replicate 10 false))).tile_slice.shape =
        Shape.sig pExC3c.slice.shape ∧
      (pExC3c.get_macrotile (some (List.replicate 10 false))).tile_slice.origin.length =
        (pExC3c.get_macrotile (some (List.replicate 10 false))).tile_slice.shape.dims.length) := by
  refine ⟨rfl, by decide, by decide⟩

/-! ### Claim C6: read-range compilation is deterministic -/

/-- C6: the compiled Read Range list is a function of the request parameters
and the files' durable data only.  Two FileSets describing the same files
(same paths, frame ranges and header sizes) with the same frame
header/footer bytes produce identical output for equal inputs, whatever
their hidden open/closed handle states, `_files_open` flags or search trees
— in particular independent of the order in which files were opened. -/
theorem get_read_ranges_deterministic (fs1 fs2 : FileSet)
    (start_at_frame stop_before_frame dtype_itemsize : Nat) (ts : TilingScheme)
    (roi : Option (List Bool))
    (hfiles : fs1.files.map fileData = fs2.files.map fileData)
    (hfh : fs1.frame_header_bytes = fs2.frame_header_bytes)
    (hff : fs1.frame_footer_bytes = fs2.frame_footer_bytes) :
    fs1.get_read_ranges start_at_frame stop_before_frame dtype_itemsize ts roi =
      fs2.get_read_ranges start_at_frame stop_before_frame dtype_itemsize ts roi := by
  have hgo : ∀ (l1 l2 : List File) (i : Nat), l1.map fileData = l2.map fileData →
      get_as_arr_go i l1 = get_as_arr_go i l2 := by
    intro l1
    induction l1 with
    | nil =>
      intro l2 i h
      cases l2 with
      | nil => rfl
      | cons g r2 => simp at h
    | cons f r ih =>
      intro l2 i h
      cases l2 with
      | nil => simp at h
      | cons g r2 =>
        simp only [List.map_cons, List.cons.injEq] at h
        obtain ⟨h1, h2⟩ := h
        simp only [fileData, Prod.mk.injEq] at h1
        unfold get_as_arr_go
        rw [h1.2.1, h1.2.2.1, h1.2.2.2, ih r2 (i + 1) h2]
  have harr : fs1.get_as_arr = fs2.get_as_arr := hgo fs1.files fs2.files 0 hfiles
  unfold FileSet.get_read_ranges
  rw [harr, hfh, hff]

/-- Witness for C6: the closed and the opened variant of the example FileSet
compile identical read ranges. -/
theorem get_read_ranges_deterministic_witness :
    fsAB.get_read_ranges 0 10 2 tsEx none = fsABopen.get_read_ranges 0 10 2 tsEx none :=
  get_read_ranges_deterministic fsAB fsABopen 0 10 2 tsEx none rfl rfl rfl
